import Mathlib

/-!
Verification development for `lheprocessor/lheprocessor.py` (class
`LHEProcessor`): sample and observable registration (`add_lhe_sample`,
`add_observable`) and the multi-sample merge loop (`analyse_lhe_samples`).

The extractor `extract_observables_from_lhe_file` is imported by the source
from `lheprocessor.tools.lhe_interface`, which is not part of the sources
under verification; it is modelled as an explicit environment parameter
(see `Env` below).  Cell values carried in observation columns and weight
rows are opaque to the merge logic, so they are a type parameter `α`
(instantiated with `Int` in concrete examples).
-/

set_option autoImplicit false

namespace LHEProc

/-- Errors that can abort `analyse_lhe_samples`.  `ioError` and
`formatError` are the parser failures raised inside
`extract_observables_from_lhe_file`; `weightMismatch` and
`obsCountMismatch` are the two `ValueError`s raised at lines 96-103 of the
source, each carrying the two compared counts; `missingKey` is the
`AssertionError` raised at line 108 when a merged key is absent from the
new sample's table.  The design document groups the last three as
`ConsistencyError`. -/
inductive RunError where
  | ioError (msg : String)
  | formatError (msg : String)
  | weightMismatch (merged new : Nat)
  | obsCountMismatch (merged new : Nat)
  | missingKey (key : String)
  deriving DecidableEq, Repr

/-- Whether an error belongs to the design document's `ConsistencyError`
class (weight-count mismatch, key-count mismatch, missing key). -/
def RunError.isConsistencyError : RunError → Bool
  | .weightMismatch _ _ => true
  | .obsCountMismatch _ _ => true
  | .missingKey _ => true
  | _ => false

/-- An observable table: an `OrderedDict` from observable name to its
numeric column, modelled as an association list in insertion order. -/
abbrev ObsTable (α : Type) : Type := List (String × List α)

/-- A weight array as held by the source (`self.weights`,
`this_weights`): a 2-D numpy array whose first axis indexes weight
variations and whose second axis indexes events.  Thus `length` is numpy's
`shape[0]`, the weight-variation count compared at line 96, and
`np.hstack` concatenates the per-variation event rows. -/
abbrev WMatrix (α : Type) : Type := List (List α)

/-- Modelled from the spec: the result of
`extract_observables_from_lhe_file` (in `lheprocessor.tools.lhe_interface`,
absent from the sources) for one sample file, per sections 4.1-4.3 of the
design document: a per-observable column table and a 2-D weight array,
oriented so that its first axis is the weight-variation count (which the
merge check at line 96 reads as `shape[0]`). -/
structure Extracted (α : Type) where
  observations : ObsTable α
  weights : WMatrix α

/-- Key lookup in an `OrderedDict` modelled as an association list:
`d[key]`, with `none` when `key in d` is false. -/
def odLookup {β : Type} : List (String × β) → String → Option β
  | [], _ => none
  | (k2, v) :: rest, k => if k2 = k then some v else odLookup rest k

/-- Assignment `d[key] = value` on an `OrderedDict`: an existing key keeps
its position and gets the new value, a new key is appended at the end. -/
def odInsert {β : Type} : List (String × β) → String → β → List (String × β)
  | [], k, v => [(k, v)]
  | (k2, v2) :: rest, k, v =>
      if k2 = k then (k, v) :: rest else (k2, v2) :: odInsert rest k v

/-- The `for key in self.observations` loop of lines 107-111: walk the
merged table in insertion order; at the first key missing from the new
sample's table stop with the `AssertionError` (`missingKey`), leaving the
keys already visited extended and the later ones untouched; otherwise
extend every column with `np.hstack`. -/
def mergeObsLoop {α : Type} : ObsTable α → ObsTable α → ObsTable α × Option RunError
  | [], _ => ([], none)
  | (k, c) :: rest, tobs =>
      match odLookup tobs k with
      | none => ((k, c) :: rest, some (RunError.missingKey k))
      | some c2 =>
          let r := mergeObsLoop rest tobs
          ((k, c ++ c2) :: r.1, r.2)

/-- One iteration of the merge (lines 91-111) applied to the running
state.  The source keeps the running merge in the two fields
`self.observations` and `self.weights`, which are both `None` (before the
first sample) or both set, so the state is one `Option` of the pair.
First sample: adopt the extracted data.  Later samples: raise on a
`shape[0]` mismatch of the weights (line 96) or a key-count mismatch of
the tables (line 100), otherwise `np.hstack` the weights (line 105) and
then run the per-key loop, which can still stop at a missing key. -/
def stepSample {α : Type} (st : Option (ObsTable α × WMatrix α)) (d : Extracted α) :
    Option (ObsTable α × WMatrix α) × Option RunError :=
  match st with
  | none => (some (d.observations, d.weights), none)
  | some (obs, wts) =>
      if wts.length ≠ d.weights.length then
        (some (obs, wts), some (RunError.weightMismatch wts.length d.weights.length))
      else if obs.length ≠ d.observations.length then
        (some (obs, wts), some (RunError.obsCountMismatch obs.length d.observations.length))
      else
        let wts2 := List.zipWith (fun a b => a ++ b) wts d.weights
        let r := mergeObsLoop obs d.observations
        (some (r.1, wts2), r.2)

/-- Modelled from the spec: the extractor
`extract_observables_from_lhe_file`, absent from the sources, as an
environment: from a filename and the two registration mappings it either
returns the extracted per-sample data or fails with a parser error
(`FormatError` / `IOError`). -/
abbrev Env (α : Type) : Type :=
  String → List (String × String) → List (String × Bool) → Except RunError (Extracted α)

/-- The `for lhe_file in self.lhe_sample_filenames` loop of
`analyse_lhe_samples` (lines 79-111): extract each file in order (a parser
error propagates at once, leaving the state as it was) and fold it into
the running state with `stepSample`; the first error aborts the loop.
Returns the final state together with the error, if any. -/
def runLoop {α : Type} (env : Env α) (od : List (String × String)) (rd : List (String × Bool)) :
    List String → Option (ObsTable α × WMatrix α) →
      Option (ObsTable α × WMatrix α) × Option RunError
  | [], st => (st, none)
  | f :: rest, st =>
      match env f od rd with
      | Except.error e => (st, some e)
      | Except.ok d =>
          match stepSample st d with
          | (st2, none) => runLoop env od rd rest st2
          | (st2, some e) => (st2, some e)

/-- The state of one `LHEProcessor` instance: the registered sample
filenames, the two registration `OrderedDict`s (`self.observables`,
`self.observables_required`), and the running merge
(`self.observations` / `self.weights`, both `None` initially). -/
structure LHEProcessor (α : Type) where
  lhe_sample_filenames : List String
  observables : List (String × String)
  observables_required : List (String × Bool)
  merged : Option (ObsTable α × WMatrix α)

/-- The constructor (lines 17-31): empty registrations, no merged data.
(`general_init` only configures logging and has no modelled effect.) -/
def LHEProcessor.init (α : Type) : LHEProcessor α :=
  { lhe_sample_filenames := []
    observables := []
    observables_required := []
    merged := none }

/-- The method `add_lhe_sample` (lines 33-37): append the filename (no
dedup, order preserved). -/
def LHEProcessor.add_lhe_sample {α : Type} (p : LHEProcessor α) (filename : String) :
    LHEProcessor α :=
  { p with lhe_sample_filenames := p.lhe_sample_filenames ++ [filename] }

/-- The method `add_observable` (lines 59-67): assign into both
registration dictionaries under the same name. -/
def LHEProcessor.add_observable {α : Type} (p : LHEProcessor α)
    (name definition : String) (required : Bool) : LHEProcessor α :=
  { p with
      observables := odInsert p.observables name definition
      observables_required := odInsert p.observables_required name required }

/-- The method `analyse_lhe_samples` (lines 77-111): run the merge loop
over the registered filenames, starting from the current merged state, and
store the resulting state back; the error (a raised exception in the
source) is returned alongside. -/
def LHEProcessor.analyse_lhe_samples {α : Type} (p : LHEProcessor α) (env : Env α) :
    LHEProcessor α × Option RunError :=
  let r := runLoop env p.observables p.observables_required p.lhe_sample_filenames p.merged
  ({ p with merged := r.1 }, r.2)

/-- One public operation on an `LHEProcessor` instance, for stating
invariants over arbitrary call sequences. -/
inductive Op (α : Type) where
  | addSample (filename : String)
  | addObservable (name definition : String) (required : Bool)
  | analyse (env : Env α)

/-- Apply one operation to the processor state (`analyse` keeps the state
even when it raises, as the source object does). -/
def applyOp {α : Type} (p : LHEProcessor α) : Op α → LHEProcessor α
  | Op.addSample f => p.add_lhe_sample f
  | Op.addObservable n dfn rq => p.add_observable n dfn rq
  | Op.analyse env => (p.analyse_lhe_samples env).1

/-- Apply a sequence of operations in order. -/
def applyOps {α : Type} (p : LHEProcessor α) : List (Op α) → LHEProcessor α
  | [] => p
  | op :: ops => applyOps (applyOp p op) ops

/-- The Dataset shape invariant of section 3 of the design document: every
observable column and every per-variation weight row has length `n`, the
number of retained events. -/
def DatasetConsistent {α : Type} (obs : ObsTable α) (wts : WMatrix α) (n : Nat) : Prop :=
  (∀ q ∈ obs, (Prod.snd q).length = n) ∧ (∀ r ∈ wts, r.length = n)

/-- The shape invariant for one extracted sample. -/
def ExtractedConsistent {α : Type} (d : Extracted α) (n : Nat) : Prop :=
  DatasetConsistent d.observations d.weights n

instance {α : Type} (obs : ObsTable α) (wts : WMatrix α) (n : Nat) :
    Decidable (DatasetConsistent obs wts n) :=
  inferInstanceAs (Decidable ((∀ q ∈ obs, (Prod.snd q).length = n) ∧ (∀ r ∈ wts, r.length = n)))

instance {α : Type} (d : Extracted α) (n : Nat) : Decidable (ExtractedConsistent d n) :=
  inferInstanceAs (Decidable (DatasetConsistent d.observations d.weights n))

/-! Concrete sample data for the examples below: small extracted samples
with one event each, over `Int` cell values. -/

/-- A sample with one observable column `x` and one weight variation. -/
def exD1 : Extracted Int := ⟨[("x", [5])], [[1]]⟩

/-- A sample like `exD1` but with two weight variations. -/
def exD2 : Extracted Int := ⟨[("x", [6])], [[7], [8]]⟩

/-- A sample with two observable columns and one weight variation. -/
def exD3 : Extracted Int := ⟨[("x", [6]), ("y", [7])], [[9]]⟩

/-- A sample with the single observable column `y` (not `x`) and one
weight variation. -/
def exD4 : Extracted Int := ⟨[("y", [6])], [[9]]⟩

/-- A sample compatible with `exD1`: column `x`, one weight variation. -/
def exD5 : Extracted Int := ⟨[("x", [6])], [[7]]⟩

/-- An extractor returning `exD1` for file `a` and `exD2` otherwise. -/
def envAB : Env Int := fun f _ _ => if f = "a" then Except.ok exD1 else Except.ok exD2

/-- An extractor returning `exD1` for file `a` and `exD3` otherwise. -/
def envAC : Env Int := fun f _ _ => if f = "a" then Except.ok exD1 else Except.ok exD3

/-- An extractor returning `exD1` for file `a` and `exD4` otherwise. -/
def envAD : Env Int := fun f _ _ => if f = "a" then Except.ok exD1 else Except.ok exD4

/-- An extractor returning `exD1` for file `a` and `exD5` otherwise. -/
def envAE : Env Int := fun f _ _ => if f = "a" then Except.ok exD1 else Except.ok exD5

/-- An extractor returning `exD1` for file `a` and failing with a
`FormatError` otherwise. -/
def envErr : Env Int :=
  fun f _ _ => if f = "a" then Except.ok exD1 else Except.error (RunError.formatError "bad")

/-- An extractor returning `exD1` for every file. -/
def envConst : Env Int := fun _ _ _ => Except.ok exD1

/-- A processor with the two registered sample files `a`, `b`. -/
def procAB : LHEProcessor Int :=
  ((LHEProcessor.init Int).add_lhe_sample "a").add_lhe_sample "b"

/-- A processor with the single registered sample file `a`. -/
def procA : LHEProcessor Int := (LHEProcessor.init Int).add_lhe_sample "a"

/-- A processor with two registered observables and no sample files. -/
def procObsOnly : LHEProcessor Int :=
  ((LHEProcessor.init Int).add_observable "name1" "f1" false).add_observable "name2" "f2" true

/-- A processor with one registered observable `x`. -/
def procX : LHEProcessor Int := (LHEProcessor.init Int).add_observable "x" "f1" false

/-! Basic lemmas about the OrderedDict operations. -/

/-- A successful lookup returns an entry of the list. -/
theorem odLookup_mem {β : Type} {l : List (String × β)} {k : String} {v : β}
    (h : odLookup l k = some v) : (k, v) ∈ l := by
  induction l with
  | nil => simp [odLookup] at h
  | cons p rest ih =>
      obtain ⟨k2, v2⟩ := p
      by_cases hk : k2 = k
      · subst hk
        simp [odLookup] at h
        simp [h]
      · simp only [odLookup, if_neg hk] at h
        exact List.mem_cons_of_mem _ (ih h)

/-- With duplicate-free keys, every entry is found by lookup under its own
key (as in a real `OrderedDict`). -/
theorem odLookup_self_of_nodup {β : Type} {l : List (String × β)}
    (h : (l.map Prod.fst).Nodup) : ∀ q ∈ l, odLookup l q.1 = some q.2 := by
  induction l with
  | nil => intro q hq; simp at hq
  | cons p rest ih =>
      intro q hq
      obtain ⟨k, v⟩ := p
      simp only [List.map_cons, List.nodup_cons] at h
      rcases List.mem_cons.mp hq with rfl | hmem
      · simp [odLookup]
      · have hne : k ≠ q.1 := by
          intro he
          exact h.1 (he ▸ List.mem_map_of_mem Prod.fst hmem)
        simp only [odLookup, if_neg hne]
        exact ih h.2 q hmem

/-- Assignment followed by lookup of the same key returns the new value. -/
theorem odLookup_odInsert_self {β : Type} (l : List (String × β)) (k : String) (v : β) :
    odLookup (odInsert l k v) k = some v := by
  induction l with
  | nil => simp [odInsert, odLookup]
  | cons p rest ih =>
      obtain ⟨k2, v2⟩ := p
      by_cases hk : k2 = k
      · simp [odInsert, hk, odLookup]
      · simp [odInsert, hk, odLookup, ih]

/-- Assignment leaves the value stored under every other key unchanged. -/
theorem odLookup_odInsert_other {β : Type} (l : List (String × β)) (k k2 : String) (v : β)
    (h : k2 ≠ k) : odLookup (odInsert l k v) k2 = odLookup l k2 := by
  have h2 : k ≠ k2 := Ne.symm h
  induction l with
  | nil => simp [odInsert, odLookup, h2]
  | cons p rest ih =>
      obtain ⟨k3, v3⟩ := p
      by_cases hk : k3 = k
      · subst hk
        simp [odInsert, odLookup, h2]
      · simp [odInsert, hk, odLookup, ih]

/-- The key sequence after an assignment: unchanged when the key was
present, otherwise the key is appended. -/
theorem odInsert_keys {β : Type} (l : List (String × β)) (k : String) (v : β) :
    (odInsert l k v).map Prod.fst =
      if k ∈ l.map Prod.fst then l.map Prod.fst else l.map Prod.fst ++ [k] := by
  induction l with
  | nil => simp [odInsert]
  | cons p rest ih =>
      obtain ⟨k2, v2⟩ := p
      by_cases hk : k2 = k
      · subst hk
        simp [odInsert]
      · have hne : ¬k = k2 := fun he => hk he.symm
        by_cases hm : k ∈ rest.map Prod.fst
        · simp [odInsert, hk, ih, hm, hne]
        · simp [odInsert, hk, ih, hm, hne]

/-- Assignment preserves duplicate-freeness of the key sequence. -/
theorem odInsert_keys_nodup {β : Type} {l : List (String × β)}
    (h : (l.map Prod.fst).Nodup) (k : String) (v : β) :
    ((odInsert l k v).map Prod.fst).Nodup := by
  rw [odInsert_keys]
  by_cases hm : k ∈ l.map Prod.fst
  · simpa [hm] using h
  · simp only [if_neg hm, List.nodup_append]
    exact ⟨h, List.nodup_singleton k, fun a ha hak => hm ((List.mem_singleton.mp hak) ▸ ha)⟩

/-! Lemmas about the per-key merge loop. -/

/-- When every merged key is present in the new sample's table, the loop
extends every column in place and reports no error. -/
theorem mergeObsLoop_ok {α : Type} (tobs : ObsTable α) :
    ∀ merged : ObsTable α, (∀ q ∈ merged, (odLookup tobs q.1).isSome) →
      mergeObsLoop merged tobs =
        (merged.map (fun q => (q.1, q.2 ++ (odLookup tobs q.1).getD [])), none) := by
  intro merged
  induction merged with
  | nil => intro _; rfl
  | cons q rest ih =>
      intro h
      obtain ⟨k, c⟩ := q
      have hk : (odLookup tobs k).isSome := h (k, c) (List.mem_cons_self _ _)
      obtain ⟨c2, hc2⟩ := Option.isSome_iff_exists.mp hk
      have hrest := ih (fun q hq => h q (List.mem_cons_of_mem _ hq))
      simp [mergeObsLoop, hc2, hrest]

/-- When the loop finishes without an error, every merged key was present
in the new sample's table. -/
theorem mergeObsLoop_none_found {α : Type} (tobs : ObsTable α) :
    ∀ merged : ObsTable α, (mergeObsLoop merged tobs).2 = none →
      ∀ q ∈ merged, (odLookup tobs q.1).isSome := by
  intro merged
  induction merged with
  | nil => intro _ q hq; simp at hq
  | cons p rest ih =>
      intro h q hq
      obtain ⟨k, c⟩ := p
      cases hl : odLookup tobs k with
      | none => simp [mergeObsLoop, hl] at h
      | some c2 =>
          rcases List.mem_cons.mp hq with rfl | hmem
          · simp [hl]
          · refine ih ?_ q hmem
            simpa [mergeObsLoop, hl] using h

/-- A merged key missing from the new sample's table makes the loop stop
with the `AssertionError` for some missing key. -/
theorem mergeObsLoop_missing {α : Type} (tobs : ObsTable α) :
    ∀ merged : ObsTable α, (∃ q ∈ merged, odLookup tobs q.1 = none) →
      ∃ k, (mergeObsLoop merged tobs).2 = some (RunError.missingKey k) ∧
        odLookup tobs k = none := by
  intro merged
  induction merged with
  | nil => rintro ⟨q, hq, _⟩; simp at hq
  | cons p rest ih =>
      rintro ⟨q0, hq0, hnone⟩
      obtain ⟨k, c⟩ := p
      cases hl : odLookup tobs k with
      | none => exact ⟨k, by simp [mergeObsLoop, hl], hl⟩
      | some c2 =>
          rcases List.mem_cons.mp hq0 with rfl | hmem
          · rw [hl] at hnone; cases hnone
          · obtain ⟨k2, hk2, hk2none⟩ := ih ⟨q0, hmem, hnone⟩
            exact ⟨k2, by simpa [mergeObsLoop, hl] using hk2, hk2none⟩

/-! Lemmas about the sample loop. -/

/-- Unfolding the loop at a file whose extraction raises: the error
propagates and the state is as it was. -/
theorem runLoop_cons_error {α : Type} {env : Env α} {od : List (String × String)}
    {rd : List (String × Bool)} {f : String} {rest : List String}
    {st : Option (ObsTable α × WMatrix α)} {e : RunError}
    (he : env f od rd = Except.error e) :
    runLoop env od rd (f :: rest) st = (st, some e) := by
  simp [runLoop, he]

/-- Unfolding the loop at a file whose extraction and merge step succeed:
continue with the remaining files from the stepped state. -/
theorem runLoop_cons_ok_none {α : Type} {env : Env α} {od : List (String × String)}
    {rd : List (String × Bool)} {f : String} {rest : List String}
    {st st2 : Option (ObsTable α × WMatrix α)} {d : Extracted α}
    (he : env f od rd = Except.ok d) (hs : stepSample st d = (st2, none)) :
    runLoop env od rd (f :: rest) st = runLoop env od rd rest st2 := by
  simp [runLoop, he, hs]

/-- Unfolding the loop at a file whose merge step raises: the loop stops
with that error and the stepped state. -/
theorem runLoop_cons_ok_some {α : Type} {env : Env α} {od : List (String × String)}
    {rd : List (String × Bool)} {f : String} {rest : List String}
    {st st2 : Option (ObsTable α × WMatrix α)} {d : Extracted α} {e : RunError}
    (he : env f od rd = Except.ok d) (hs : stepSample st d = (st2, some e)) :
    runLoop env od rd (f :: rest) st = (st2, some e) := by
  simp [runLoop, he, hs]

/-- The loop over a concatenation of file lists: run the first part; when
it succeeds continue with the second part from the reached state,
otherwise stop with the first part's error and state. -/
theorem runLoop_append {α : Type} (env : Env α) (od : List (String × String))
    (rd : List (String × Bool)) (l1 l2 : List String)
    (st : Option (ObsTable α × WMatrix α)) :
    runLoop env od rd (l1 ++ l2) st =
      match runLoop env od rd l1 st with
      | (st2, none) => runLoop env od rd l2 st2
      | (st2, some e) => (st2, some e) := by
  induction l1 generalizing st with
  | nil => simp [runLoop]
  | cons f rest ih =>
      rcases he : env f od rd with e | d
      · rw [List.cons_append, runLoop_cons_error he, runLoop_cons_error he]
      · rcases hs : stepSample st d with ⟨st2, oe⟩
        cases oe with
        | none =>
            rw [List.cons_append, runLoop_cons_ok_none he hs, runLoop_cons_ok_none he hs]
            exact ih st2
        | some e =>
            rw [List.cons_append, runLoop_cons_ok_some he hs, runLoop_cons_ok_some he hs]

/-- A successful prefix of the loop lets the run continue from the reached
state. -/
theorem runLoop_append_ok {α : Type} {env : Env α} {od : List (String × String)}
    {rd : List (String × Bool)} {l1 : List String}
    {st st2 : Option (ObsTable α × WMatrix α)} (l2 : List String)
    (h : runLoop env od rd l1 st = (st2, none)) :
    runLoop env od rd (l1 ++ l2) st = runLoop env od rd l2 st2 := by
  rw [runLoop_append, h]

/-- One merge step never clears the running state: from a set state it
always returns a set state, whether or not it raises. -/
theorem stepSample_isSome {α : Type} (x : ObsTable α × WMatrix α) (d : Extracted α) :
    ((stepSample (some x) d).1).isSome := by
  obtain ⟨obs, wts⟩ := x
  simp only [stepSample]
  split
  · simp
  · split
    · simp
    · simp

/-- The sample loop never clears the running state: from a set state it
always ends in a set state, whether or not it raises. -/
theorem runLoop_isSome {α : Type} (env : Env α) (od : List (String × String))
    (rd : List (String × Bool)) :
    ∀ (files : List String) (st : Option (ObsTable α × WMatrix α)),
      st.isSome → ((runLoop env od rd files st).1).isSome := by
  intro files
  induction files with
  | nil => intro st h; exact h
  | cons f rest ih =>
      intro st h
      rcases he : env f od rd with e | d
      · rw [runLoop_cons_error he]
        exact h
      · obtain ⟨x, rfl⟩ := Option.isSome_iff_exists.mp h
        rcases hs : stepSample (some x) d with ⟨st2, oe⟩
        have h2 : st2.isSome := by
          have hstep := stepSample_isSome x d
          rw [hs] at hstep
          exact hstep
        cases oe with
        | none =>
            rw [runLoop_cons_ok_none he hs]
            exact ih st2 h2
        | some e =>
            rw [runLoop_cons_ok_some he hs]
            exact h2

/-- Rows of a row-wise `zipWith` append come from appending a row of each
operand. -/
theorem mem_zipWith_append {α : Type} :
    ∀ (l1 l2 : List (List α)) (r : List α),
      r ∈ List.zipWith (fun a b => a ++ b) l1 l2 →
      ∃ a ∈ l1, ∃ b ∈ l2, r = a ++ b := by
  intro l1
  induction l1 with
  | nil => intro l2 r h; simp at h
  | cons a l1 ih =>
      intro l2 r h
      cases l2 with
      | nil => simp at h
      | cons b l2 =>
          rcases List.mem_cons.mp h with rfl | hmem
          · exact ⟨a, List.mem_cons_self _ _, b, List.mem_cons_self _ _, rfl⟩
          · obtain ⟨a2, ha, b2, hb, heq⟩ := ih l2 r hmem
            exact ⟨a2, List.mem_cons_of_mem _ ha, b2, List.mem_cons_of_mem _ hb, heq⟩

/-- One successful merge step preserves the Dataset shape invariant: from
an unset state or a consistent state, folding in a consistent sample
yields a consistent state. -/
theorem stepSample_consistent {α : Type} {st st2 : Option (ObsTable α × WMatrix α)}
    {d : Extracted α} {m : Nat}
    (hst : st = none ∨ ∃ obs wts n, st = some (obs, wts) ∧ DatasetConsistent obs wts n)
    (hd : ExtractedConsistent d m)
    (hstep : stepSample st d = (st2, none)) :
    ∃ obs2 wts2 n2, st2 = some (obs2, wts2) ∧ DatasetConsistent obs2 wts2 n2 := by
  rcases hst with rfl | ⟨obs, wts, n, rfl, hcons⟩
  · refine ⟨d.observations, d.weights, m, ?_, hd⟩
    simp only [stepSample] at hstep
    exact (congrArg Prod.fst hstep).symm
  · simp only [stepSample] at hstep
    by_cases hw2 : wts.length ≠ d.weights.length
    · rw [if_pos hw2] at hstep
      exact absurd (congrArg Prod.snd hstep) (by simp)
    · rw [if_neg hw2] at hstep
      by_cases ho2 : obs.length ≠ d.observations.length
      · rw [if_pos ho2] at hstep
        exact absurd (congrArg Prod.snd hstep) (by simp)
      · rw [if_neg ho2] at hstep
        have hmerge : (mergeObsLoop obs d.observations).2 = none :=
          congrArg Prod.snd hstep
        have hfound := mergeObsLoop_none_found d.observations obs hmerge
        have hform := mergeObsLoop_ok d.observations obs hfound
        have hst2 : st2 =
            some ((mergeObsLoop obs d.observations).1,
              List.zipWith (fun a b => a ++ b) wts d.weights) :=
          (congrArg Prod.fst hstep).symm
        refine ⟨(mergeObsLoop obs d.observations).1,
          List.zipWith (fun a b => a ++ b) wts d.weights, n + m, hst2, ?_, ?_⟩
        · intro q hq
          rw [hform] at hq
          simp only [List.mem_map] at hq
          obtain ⟨q0, hq0, rfl⟩ := hq
          obtain ⟨c2, hc2⟩ := Option.isSome_iff_exists.mp (hfound q0 hq0)
          have hlen0 : q0.2.length = n := hcons.1 q0 hq0
          have hlen2 : c2.length = m := hd.1 (q0.1, c2) (odLookup_mem hc2)
          simp [hc2, hlen0, hlen2]
        · intro r hr
          obtain ⟨a, ha, b, hb, rfl⟩ := mem_zipWith_append wts d.weights r hr
          rw [List.length_append, hcons.2 a ha, hd.2 b hb]

/-- The sample loop preserves the Dataset shape invariant when every
extracted sample satisfies it. -/
theorem runLoop_consistent {α : Type} (env : Env α) (od : List (String × String))
    (rd : List (String × Bool)) :
    ∀ (files : List String) (st st2 : Option (ObsTable α × WMatrix α)),
      (∀ f ∈ files, ∀ d, env f od rd = Except.ok d → ∃ m, ExtractedConsistent d m) →
      (st = none ∨ ∃ obs wts n, st = some (obs, wts) ∧ DatasetConsistent obs wts n) →
      runLoop env od rd files st = (st2, none) →
      (st2 = none ∨ ∃ obs wts n, st2 = some (obs, wts) ∧ DatasetConsistent obs wts n) := by
  intro files
  induction files with
  | nil =>
      intro st st2 _ hst h
      simp only [runLoop] at h
      have h1 : st = st2 := congrArg Prod.fst h
      exact h1 ▸ hst
  | cons f rest ih =>
      intro st st2 henv hst h
      rcases he : env f od rd with e | d
      · rw [runLoop_cons_error he] at h
        exact absurd (congrArg Prod.snd h) (by simp)
      · rcases hs : stepSample st d with ⟨stM, oe⟩
        cases oe with
        | none =>
            rw [runLoop_cons_ok_none he hs] at h
            obtain ⟨m, hm⟩ := henv f (List.mem_cons_self _ _) d he
            have hinv := stepSample_consistent hst hm hs
            exact ih stM st2 (fun g hg => henv g (List.mem_cons_of_mem _ hg)) (Or.inr hinv) h
        | some e =>
            rw [runLoop_cons_ok_some he hs] at h
            exact absurd (congrArg Prod.snd h) (by simp)

/-! The claim theorems. -/

/-- C1: for every run with at least two registered samples, when a
subsequent sample's weight-variation count (the weight array's `shape[0]`)
differs from that of the merged Dataset accumulated so far,
`analyse_lhe_samples` fails with the `ConsistencyError`
(`weightMismatch`, the `ValueError` of lines 96-99) reporting the two
counts. -/
theorem analyse_weight_mismatch {α : Type} (env : Env α) (p : LHEProcessor α)
    (pre rest : List String) (f : String) (obs : ObsTable α) (wts : WMatrix α)
    (d : Extracted α)
    (hfiles : p.lhe_sample_filenames = pre ++ f :: rest)
    (hpre : runLoop env p.observables p.observables_required pre p.merged =
      (some (obs, wts), none))
    (hd : env f p.observables p.observables_required = Except.ok d)
    (hw : wts.length ≠ d.weights.length) :
    (p.analyse_lhe_samples env).2 =
      some (RunError.weightMismatch wts.length d.weights.length) := by
  have hstep : stepSample (some (obs, wts)) d =
      (some (obs, wts), some (RunError.weightMismatch wts.length d.weights.length)) := by
    simp [stepSample, hw]
  have hrun : runLoop env p.observables p.observables_required p.lhe_sample_filenames p.merged =
      (some (obs, wts), some (RunError.weightMismatch wts.length d.weights.length)) := by
    rw [hfiles, runLoop_append_ok (f :: rest) hpre, runLoop_cons_ok_some hd hstep]
  simp [LHEProcessor.analyse_lhe_samples, hrun]

/-- Witness for C1 at a concrete run: merging file `b` (two weight
variations) after file `a` (one) fails reporting 1 vs 2. -/
theorem analyse_weight_mismatch_witness :
    (procAB.analyse_lhe_samples envAB).2 = some (RunError.weightMismatch 1 2) :=
  analyse_weight_mismatch envAB procAB ["a"] [] "b" [("x", [5])] [[1]] exD2
    rfl rfl rfl (by decide)

/-- C7: a `FormatError` or `IOError` raised while extracting a sample file
propagates unchanged out of `analyse_lhe_samples`: the merge loop neither
catches nor transforms nor absorbs it, and the merge state stays exactly
as accumulated before the failing file. -/
theorem analyse_parser_error_propagates {α : Type} (env : Env α) (p : LHEProcessor α)
    (pre rest : List String) (f : String) (st2 : Option (ObsTable α × WMatrix α))
    (e : RunError)
    (hfiles : p.lhe_sample_filenames = pre ++ f :: rest)
    (hpre : runLoop env p.observables p.observables_required pre p.merged = (st2, none))
    (he : env f p.observables p.observables_required = Except.error e)
    (hkind : (∃ msg, e = RunError.formatError msg) ∨ (∃ msg, e = RunError.ioError msg)) :
    p.analyse_lhe_samples env = ({ p with merged := st2 }, some e) := by
  have hrun : runLoop env p.observables p.observables_required p.lhe_sample_filenames p.merged =
      (st2, some e) := by
    rw [hfiles, runLoop_append_ok (f :: rest) hpre, runLoop_cons_error he]
  simp [LHEProcessor.analyse_lhe_samples, hrun]

/-- Witness for C7 at a concrete run: file `b` raises `FormatError "bad"`
after file `a` merged, and exactly that error leaves the run. -/
theorem analyse_parser_error_propagates_witness :
    procAB.analyse_lhe_samples envErr =
      ({ procAB with merged := some ([("x", [5])], [[1]]) },
        some (RunError.formatError "bad")) :=
  analyse_parser_error_propagates envErr procAB ["a"] [] "b"
    (some ([("x", [5])], [[1]])) (RunError.formatError "bad")
    rfl rfl rfl (Or.inl ⟨"bad", rfl⟩)

/-- C2 counterexample: with two registered samples whose weight-variation
counts differ, `analyse_lhe_samples` raises, yet the merged Dataset
accumulated from the first sample is retained in the processor state
(`self.observations` / `self.weights`) rather than discarded. -/
theorem analyse_abort_retains_counterexample :
    (procAB.analyse_lhe_samples envAB).2 = some (RunError.weightMismatch 1 2) ∧
    ((procAB.analyse_lhe_samples envAB).1).merged = some ([("x", [5])], [[1]]) := by
  constructor <;> rfl

/-- C2 amended: whenever `analyse_lhe_samples` aborts with a fatal error
after at least one sample has been folded into the merge, the error
propagates to the caller and no result is returned, but the merged
Dataset accumulated so far is retained in the processor state (possibly
partially extended), never discarded. -/
theorem analyse_abort_retains_merged {α : Type} (env : Env α) (p : LHEProcessor α)
    (pre rest : List String) (f : String) (acc : ObsTable α × WMatrix α) (e : RunError)
    (hfiles : p.lhe_sample_filenames = pre ++ f :: rest)
    (hpre : runLoop env p.observables p.observables_required pre p.merged = (some acc, none))
    (herr : (p.analyse_lhe_samples env).2 = some e) :
    (((p.analyse_lhe_samples env).1).merged).isSome = true := by
  have hrun : (runLoop env p.observables p.observables_required
      p.lhe_sample_filenames p.merged).1.isSome = true := by
    rw [hfiles, runLoop_append_ok (f :: rest) hpre]
    exact runLoop_isSome env p.observables p.observables_required (f :: rest) (some acc) rfl
  simpa [LHEProcessor.analyse_lhe_samples] using hrun

/-- Witness for the amended C2 at a concrete aborting run: the state keeps
a merged Dataset. -/
theorem analyse_abort_retains_merged_witness :
    (((procAB.analyse_lhe_samples envAB).1).merged).isSome = true :=
  analyse_abort_retains_merged envAB procAB ["a"] [] "b" ([("x", [5])], [[1]])
    (RunError.weightMismatch 1 2) rfl rfl rfl

/-- C4 counterexample: with zero registered samples and two registered
observables, `analyse_lhe_samples` raises nothing but also builds no
Dataset at all: the merged state stays `None` instead of becoming an
empty table with keys `name1` and `name2`. -/
theorem analyse_zero_samples_counterexample :
    (procObsOnly.analyse_lhe_samples envConst).2 = none ∧
    ((procObsOnly.analyse_lhe_samples envConst).1).merged = none := by
  constructor <;> rfl

/-- C4 amended: calling `analyse_lhe_samples` with zero registered sample
filenames is not an error, and it leaves the processor unchanged: the
merged observations and weights stay `None`; no empty zero-row Dataset
keyed by the registered observable definitions is created. -/
theorem analyse_zero_samples {α : Type} (env : Env α) (p : LHEProcessor α)
    (hfiles : p.lhe_sample_filenames = []) :
    p.analyse_lhe_samples env = (p, none) := by
  have hrun : runLoop env p.observables p.observables_required
      p.lhe_sample_filenames p.merged = (p.merged, none) := by
    rw [hfiles]
    rfl
  simp [LHEProcessor.analyse_lhe_samples, hrun]

/-- Witness for the amended C4 at a concrete processor with two registered
observables and no samples. -/
theorem analyse_zero_samples_witness :
    procObsOnly.analyse_lhe_samples envConst = (procObsOnly, none) :=
  analyse_zero_samples envConst procObsOnly rfl

/-- C3: when merging a subsequent sample, `analyse_lhe_samples` fails with
a `ConsistencyError` if the new sample's observable key set differs in
size from the merged Dataset's (`obsCountMismatch`, the `ValueError` of
lines 100-103, reporting the two key counts), and when the sizes agree, a
key present in the merged table but missing from the new sample's table is
fatal (`missingKey`, the `AssertionError` of lines 107-110) rather than
silently zero-filled. -/
theorem analyse_keyset_checks {α : Type} (env : Env α) (p : LHEProcessor α)
    (pre rest : List String) (f : String) (obs : ObsTable α) (wts : WMatrix α)
    (d : Extracted α)
    (hfiles : p.lhe_sample_filenames = pre ++ f :: rest)
    (hpre : runLoop env p.observables p.observables_required pre p.merged =
      (some (obs, wts), none))
    (hd : env f p.observables p.observables_required = Except.ok d)
    (hw : wts.length = d.weights.length) :
    (obs.length ≠ d.observations.length →
      (p.analyse_lhe_samples env).2 =
        some (RunError.obsCountMismatch obs.length d.observations.length)) ∧
    (obs.length = d.observations.length →
      ∀ k c, (k, c) ∈ obs → odLookup d.observations k = none →
      ∃ k2, (p.analyse_lhe_samples env).2 = some (RunError.missingKey k2) ∧
        odLookup d.observations k2 = none) := by
  constructor
  · intro ho
    have hstep : stepSample (some (obs, wts)) d =
        (some (obs, wts),
          some (RunError.obsCountMismatch obs.length d.observations.length)) := by
      simp [stepSample, hw, ho]
    have hrun : runLoop env p.observables p.observables_required
        p.lhe_sample_filenames p.merged =
        (some (obs, wts),
          some (RunError.obsCountMismatch obs.length d.observations.length)) := by
      rw [hfiles, runLoop_append_ok (f :: rest) hpre, runLoop_cons_ok_some hd hstep]
    simp [LHEProcessor.analyse_lhe_samples, hrun]
  · intro ho k c hmem hnone
    obtain ⟨k2, hk2, hk2none⟩ :=
      mergeObsLoop_missing d.observations obs ⟨(k, c), hmem, hnone⟩
    have hstep : stepSample (some (obs, wts)) d =
        (some ((mergeObsLoop obs d.observations).1,
          List.zipWith (fun a b => a ++ b) wts d.weights),
          some (RunError.missingKey k2)) := by
      simp [stepSample, hw, ho, hk2]
    have hrun : runLoop env p.observables p.observables_required
        p.lhe_sample_filenames p.merged =
        (some ((mergeObsLoop obs d.observations).1,
          List.zipWith (fun a b => a ++ b) wts d.weights),
          some (RunError.missingKey k2)) := by
      rw [hfiles, runLoop_append_ok (f :: rest) hpre, runLoop_cons_ok_some hd hstep]
    exact ⟨k2, by simp [LHEProcessor.analyse_lhe_samples, hrun], hk2none⟩

/-- Witness for C3 at two concrete runs: merging a two-key sample after a
one-key sample reports the key counts 1 vs 2; merging an equally sized
sample whose table lacks the merged key `x` stops at the missing key. -/
theorem analyse_keyset_checks_witness :
    ((procAB.analyse_lhe_samples envAC).2 = some (RunError.obsCountMismatch 1 2)) ∧
    (∃ k2, (procAB.analyse_lhe_samples envAD).2 = some (RunError.missingKey k2) ∧
      odLookup exD4.observations k2 = none) :=
  ⟨(analyse_keyset_checks envAC procAB ["a"] [] "b" [("x", [5])] [[1]] exD3
      rfl rfl rfl rfl).1 (by decide),
   (analyse_keyset_checks envAD procAB ["a"] [] "b" [("x", [5])] [[1]] exD4
      rfl rfl rfl rfl).2 rfl "x" [5] (by decide) rfl⟩

/-- C5: for every successful `analyse_lhe_samples` run starting from an
unset merge whose extracted per-sample Datasets each satisfy the shape
invariant (every observable column's length equals the per-variation
event count of the weight array), the merged Dataset satisfies the same
invariant: every merged column's length equals the merged weight array's
per-variation event count. -/
theorem analyse_shape_invariant {α : Type} (env : Env α) (p : LHEProcessor α)
    (obs : ObsTable α) (wts : WMatrix α)
    (hm : p.merged = none)
    (hcons : ∀ f ∈ p.lhe_sample_filenames, ∀ d,
      env f p.observables p.observables_required = Except.ok d →
      ∃ m, ExtractedConsistent d m)
    (hok : (p.analyse_lhe_samples env).2 = none)
    (hres : ((p.analyse_lhe_samples env).1).merged = some (obs, wts)) :
    ∃ n, DatasetConsistent obs wts n := by
  rcases hrun : runLoop env p.observables p.observables_required
      p.lhe_sample_filenames p.merged with ⟨st2, oe⟩
  have hoe : oe = none := by
    have h := hok
    simp [LHEProcessor.analyse_lhe_samples, hrun] at h
    exact h
  subst hoe
  have hst2 : st2 = some (obs, wts) := by
    have h := hres
    simp [LHEProcessor.analyse_lhe_samples, hrun] at h
    exact h
  have hinv := runLoop_consistent env p.observables p.observables_required
    p.lhe_sample_filenames p.merged st2 hcons (Or.inl hm) hrun
  rcases hinv with h | ⟨obs2, wts2, n, heq, hc⟩
  · rw [hst2] at h
    cases h
  · rw [hst2] at heq
    simp only [Option.some.injEq, Prod.mk.injEq] at heq
    exact ⟨n, by rw [heq.1, heq.2]; exact hc⟩

/-- Witness for C5 at a concrete one-sample run: the merged Dataset keeps
columns and weight rows of equal event count. -/
theorem analyse_shape_invariant_witness :
    ∃ n, DatasetConsistent ([("x", [5])] : ObsTable Int) [[1]] n :=
  analyse_shape_invariant envConst procA [("x", [5])] [[1]] rfl
    (fun f hf d hd => by
      injection hd with h
      exact ⟨1, by rw [← h]; decide⟩)
    rfl rfl

/-- C6: `analyse_lhe_samples` processes the registered filenames exactly
in registration order, duplicates allowed and processed independently (the
two files here may be equal), and with a compatible second sample the
merged Dataset carries, in every observable column and in every
per-variation weight row, sample A's entries followed by sample B's — the
merge is order-sensitive in output layout. -/
theorem analyse_append_order {α : Type} (env : Env α) (p : LHEProcessor α)
    (fa fb : String) (da db : Extracted α)
    (hfiles : p.lhe_sample_filenames = [fa, fb])
    (hm : p.merged = none)
    (ha : env fa p.observables p.observables_required = Except.ok da)
    (hb : env fb p.observables p.observables_required = Except.ok db)
    (hw : da.weights.length = db.weights.length)
    (ho : da.observations.length = db.observations.length)
    (hk : ∀ q ∈ da.observations, (odLookup db.observations q.1).isSome = true) :
    (p.analyse_lhe_samples env).2 = none ∧
    ((p.analyse_lhe_samples env).1).merged =
      some (da.observations.map
          (fun q => (q.1, q.2 ++ (odLookup db.observations q.1).getD [])),
        List.zipWith (fun a b => a ++ b) da.weights db.weights) := by
  have hs1 : stepSample (none : Option (ObsTable α × WMatrix α)) da =
      (some (da.observations, da.weights), none) := rfl
  have hmerge := mergeObsLoop_ok db.observations da.observations hk
  have hs2 : stepSample (some (da.observations, da.weights)) db =
      (some (da.observations.map
          (fun q => (q.1, q.2 ++ (odLookup db.observations q.1).getD [])),
        List.zipWith (fun a b => a ++ b) da.weights db.weights), none) := by
    simp [stepSample, hw, ho, hmerge]
  have hrun : runLoop env p.observables p.observables_required [fa, fb] none =
      (some (da.observations.map
          (fun q => (q.1, q.2 ++ (odLookup db.observations q.1).getD [])),
        List.zipWith (fun a b => a ++ b) da.weights db.weights), none) := by
    rw [show ([fa, fb] : List String) = fa :: [fb] from rfl,
      runLoop_cons_ok_none ha hs1, runLoop_cons_ok_none hb hs2]
    rfl
  constructor
  · simp [LHEProcessor.analyse_lhe_samples, hfiles, hm, hrun]
  · simp [LHEProcessor.analyse_lhe_samples, hfiles, hm, hrun]

/-- Witness for C6 at a concrete two-sample run: the merged column is
sample A's `[5]` followed by sample B's `[6]`, and the weight row is
sample A's `[1]` followed by sample B's `[7]`. -/
theorem analyse_append_order_witness :
    (procAB.analyse_lhe_samples envAE).2 = none ∧
    ((procAB.analyse_lhe_samples envAE).1).merged = some ([("x", [5, 6])], [[1, 7]]) :=
  ⟨(analyse_append_order envAE procAB "a" "b" exD1 exD5
      rfl rfl rfl rfl rfl rfl (by decide)).1,
   (analyse_append_order envAE procAB "a" "b" exD1 exD5
      rfl rfl rfl rfl rfl rfl (by decide)).2⟩

/-- C9: `analyse_lhe_samples` is not idempotent: a second call with
unchanged registration re-processes every registered filename and appends
its rows to the already-merged Dataset, so after two successful calls over
one sample every column and every per-variation weight row holds the
sample's events twice. -/
theorem analyse_not_idempotent {α : Type} (env : Env α) (p : LHEProcessor α)
    (f : String) (d : Extracted α)
    (hfiles : p.lhe_sample_filenames = [f])
    (hm : p.merged = none)
    (hd : env f p.observables p.observables_required = Except.ok d)
    (hnd : (d.observations.map Prod.fst).Nodup) :
    p.analyse_lhe_samples env =
      ({ p with merged := some (d.observations, d.weights) }, none) ∧
    (((p.analyse_lhe_samples env).1).analyse_lhe_samples env).2 = none ∧
    ((((p.analyse_lhe_samples env).1).analyse_lhe_samples env).1).merged =
      some (d.observations.map (fun q => (q.1, q.2 ++ q.2)),
        List.zipWith (fun a b => a ++ b) d.weights d.weights) := by
  have hself := odLookup_self_of_nodup hnd
  have hk : ∀ q ∈ d.observations, (odLookup d.observations q.1).isSome = true :=
    fun q hq => by rw [hself q hq]; rfl
  have hmap : d.observations.map
      (fun q => (q.1, q.2 ++ (odLookup d.observations q.1).getD [])) =
      d.observations.map (fun q => (q.1, q.2 ++ q.2)) :=
    List.map_congr_left (fun q hq => by rw [hself q hq]; rfl)
  have hmerge2 : mergeObsLoop d.observations d.observations =
      (d.observations.map (fun q => (q.1, q.2 ++ q.2)), none) := by
    rw [mergeObsLoop_ok d.observations d.observations hk, hmap]
  have hs1 : stepSample (none : Option (ObsTable α × WMatrix α)) d =
      (some (d.observations, d.weights), none) := rfl
  have hrun1 : runLoop env p.observables p.observables_required [f] none =
      (some (d.observations, d.weights), none) := by
    rw [show ([f] : List String) = f :: [] from rfl, runLoop_cons_ok_none hd hs1]
    rfl
  have h1 : p.analyse_lhe_samples env =
      ({ p with merged := some (d.observations, d.weights) }, none) := by
    simp [LHEProcessor.analyse_lhe_samples, hfiles, hm, hrun1]
  have hs2 : stepSample (some (d.observations, d.weights)) d =
      (some (d.observations.map (fun q => (q.1, q.2 ++ q.2)),
        List.zipWith (fun a b => a ++ b) d.weights d.weights), none) := by
    simp [stepSample, hmerge2]
  have hrun2 : runLoop env p.observables p.observables_required [f]
      (some (d.observations, d.weights)) =
      (some (d.observations.map (fun q => (q.1, q.2 ++ q.2)),
        List.zipWith (fun a b => a ++ b) d.weights d.weights), none) := by
    rw [show ([f] : List String) = f :: [] from rfl, runLoop_cons_ok_none hd hs2]
    rfl
  refine ⟨h1, ?_, ?_⟩
  · rw [h1]
    simp [LHEProcessor.analyse_lhe_samples, hfiles, hrun2]
  · rw [h1]
    simp [LHEProcessor.analyse_lhe_samples, hfiles, hrun2]

/-- Witness for C9 at a concrete one-sample run executed twice: the
column doubles to `[5, 5]` and the weight row to `[1, 1]`. -/
theorem analyse_not_idempotent_witness :
    ((((procA.analyse_lhe_samples envConst).1).analyse_lhe_samples envConst).1).merged =
      some ([("x", [5, 5])], [[1, 1]]) :=
  (analyse_not_idempotent envConst procA "a" exD1 rfl rfl rfl (by decide)).2.2

/-- C8: re-registering an observable under an already-used name overwrites
both the prior formula definition and the prior required flag
(last-write-wins), leaves every other name's entries unchanged, and keeps
exactly one definition per name: duplicate-free key sequences (which hold
for every sequence of `add_observable` calls from the constructor) stay
duplicate-free. -/
theorem add_observable_last_write_wins {α : Type} (p : LHEProcessor α)
    (name definition : String) (required : Bool) :
    odLookup ((p.add_observable name definition required).observables) name =
      some definition ∧
    odLookup ((p.add_observable name definition required).observables_required) name =
      some required ∧
    (∀ other, other ≠ name →
      odLookup ((p.add_observable name definition required).observables) other =
        odLookup p.observables other ∧
      odLookup ((p.add_observable name definition required).observables_required) other =
        odLookup p.observables_required other) ∧
    ((p.observables.map Prod.fst).Nodup →
      (((p.add_observable name definition required).observables.map Prod.fst).Nodup)) ∧
    ((p.observables_required.map Prod.fst).Nodup →
      (((p.add_observable name definition required).observables_required.map
        Prod.fst).Nodup)) := by
  refine ⟨?_, ?_, ?_, ?_, ?_⟩
  · exact odLookup_odInsert_self p.observables name definition
  · exact odLookup_odInsert_self p.observables_required name required
  · intro other hother
    exact ⟨odLookup_odInsert_other p.observables name other definition hother,
      odLookup_odInsert_other p.observables_required name other required hother⟩
  · intro h
    exact odInsert_keys_nodup h name definition
  · intro h
    exact odInsert_keys_nodup h name required

/-- Witness for C8: re-registering `x` over `procX` replaces its formula
and flag and keeps one entry per name. -/
theorem add_observable_last_write_wins_witness :
    odLookup ((procX.add_observable "x" "f2" true).observables) "x" = some "f2" ∧
    odLookup ((procX.add_observable "x" "f2" true).observables_required) "x" = some true ∧
    (((procX.add_observable "x" "f2" true).observables.map Prod.fst).Nodup) := by
  have h := add_observable_last_write_wins procX "x" "f2" true
  exact ⟨h.1, h.2.1, h.2.2.2.1 (by decide)⟩

/-- C10: after any sequence of public operations starting from the
constructor, the observables mapping and the observables_required mapping
have exactly the same key sequence (same key set, same insertion order),
and `analyse_lhe_samples` never modifies the registered filename list or
either registration mapping. -/
theorem registration_invariants (α : Type) :
    (∀ ops : List (Op α),
      (applyOps (LHEProcessor.init α) ops).observables.map Prod.fst =
        (applyOps (LHEProcessor.init α) ops).observables_required.map Prod.fst) ∧
    (∀ (p : LHEProcessor α) (env : Env α),
      ((p.analyse_lhe_samples env).1).lhe_sample_filenames = p.lhe_sample_filenames ∧
      ((p.analyse_lhe_samples env).1).observables = p.observables ∧
      ((p.analyse_lhe_samples env).1).observables_required = p.observables_required) := by
  constructor
  · have key : ∀ (ops : List (Op α)) (p : LHEProcessor α),
        p.observables.map Prod.fst = p.observables_required.map Prod.fst →
        (applyOps p ops).observables.map Prod.fst =
          (applyOps p ops).observables_required.map Prod.fst := by
      intro ops
      induction ops with
      | nil => intro p h; exact h
      | cons op rest ih =>
          intro p h
          refine ih (applyOp p op) ?_
          cases op with
          | addSample f => simpa [applyOp, LHEProcessor.add_lhe_sample] using h
          | addObservable n dfn rq =>
              simp [applyOp, LHEProcessor.add_observable, odInsert_keys, h]
          | analyse env => simpa [applyOp, LHEProcessor.analyse_lhe_samples] using h
    intro ops
    exact key ops (LHEProcessor.init α) rfl
  · intro p env
    exact ⟨rfl, rfl, rfl⟩

end LHEProc
